import Mathlib

/-!
Verification of the tsumitate-simulator data-fetch script
(`fetch_index_data_v2.py`) against its natural-language specification.

The program fetches four daily price series (acwi, fang, nikkei, usdjpy),
assigns them one by one as columns of an initially empty DataFrame — pandas
column assignment (`df[name] = series`) aligns every later series onto the
index adopted from the first assigned column, so the table is indexed by
the `acwi` series' dates and never by the union of all dates — sorts the
index, forward-fills gaps, converts dollar-quoted series to yen by
multiplying with the usdjpy series, drops rows that still contain missing
values, and serializes the result to a JSON document with metadata.

Shallow embedding conventions:
* calendar dates are `Date` records (year, month, day) ordered
  lexicographically, matching pandas' chronological index order;
* a float that may be NaN is an `Option ℚ` (`none` = NaN), so that
  multiplication with a NaN (`omul`) propagates missingness exactly as IEEE
  multiplication propagates NaN, and `dropna` keeps rows whose fields are
  all `some`;
* JSON output is a structured `OutputDocument`; Python's `json.dump` of a
  float NaN produces the non-null token `NaN`, embedded as `JVal.nan`,
  distinct from `JVal.null` (Python `None`).
-/

/-- A calendar date, as carried by the pandas DatetimeIndex. -/
structure Date where
  y : Nat
  m : Nat
  d : Nat
deriving DecidableEq, Repr

/-- Chronological (lexicographic) order on dates, non-strict. -/
def Date.le (a b : Date) : Prop :=
  a.y < b.y ∨ (a.y = b.y ∧ (a.m < b.m ∨ (a.m = b.m ∧ a.d ≤ b.d)))

/-- Chronological (lexicographic) order on dates, strict. -/
def Date.lt (a b : Date) : Prop :=
  a.y < b.y ∨ (a.y = b.y ∧ (a.m < b.m ∨ (a.m = b.m ∧ a.d < b.d)))

instance : DecidableRel Date.le := fun a b => by
  unfold Date.le; exact inferInstance

instance : DecidableRel Date.lt := fun a b => by
  unfold Date.lt; exact inferInstance

instance : IsTotal Date Date.le :=
  ⟨fun a b => by unfold Date.le; omega⟩

instance : IsTrans Date Date.le :=
  ⟨fun a b c h1 h2 => by unfold Date.le at *; omega⟩

theorem Date.le_refl (a : Date) : Date.le a a := by
  unfold Date.le; omega

theorem Date.le_of_lt {a b : Date} (h : Date.lt a b) : Date.le a b := by
  unfold Date.lt at h; unfold Date.le; omega

theorem Date.not_le_of_lt {a b : Date} (h : Date.lt a b) : ¬ Date.le b a := by
  unfold Date.lt at h; unfold Date.le; omega

theorem Date.lt_of_le_of_ne {a b : Date} (h : Date.le a b) (hne : a ≠ b) :
    Date.lt a b := by
  rcases a with ⟨ay, am, ad⟩
  rcases b with ⟨cy, cm, cd⟩
  unfold Date.le at h; unfold Date.lt
  dsimp only at h ⊢
  have h3 : ¬(ay = cy ∧ am = cm ∧ ad = cd) := by
    intro hc
    exact hne (by rw [hc.1, hc.2.1, hc.2.2])
  omega

/-- One fetched raw price series: ordered (date, close) observations. -/
abbrev RawSeries := List (Date × ℚ)

/-- The four raw series handed to `process_data` (dict keys `acwi`, `fang`,
`nikkei`, `usdjpy`; `main` guarantees all four are present). -/
structure RawData where
  acwi : RawSeries
  fang : RawSeries
  nikkei : RawSeries
  usdjpy : RawSeries

/-- One row of the joined table: four possibly-NaN values. -/
structure Row where
  acwi : Option ℚ
  fang : Option ℚ
  nikkei : Option ℚ
  usdjpy : Option ℚ
deriving DecidableEq, Repr

/-- The aligned table: rows keyed by date, in index order. -/
abbrev Table := List (Date × Row)

/-- Look a date up in a raw series (pandas series indexing: the value at
that index label, NaN when absent). -/
def lookupD (s : RawSeries) (d : Date) : Option ℚ :=
  (s.find? (fun p => p.1 == d)).map Prod.snd

/-- All dates appearing in any of the four series. -/
def allDates (raw : RawData) : List Date :=
  raw.acwi.map Prod.fst ++ raw.fang.map Prod.fst ++
    raw.nikkei.map Prod.fst ++ raw.usdjpy.map Prod.fst

/-- The table's date index after `df.sort_index()`.  Assigning a series to
a column of an empty DataFrame adopts that series' index; every later
`df[name] = series` aligns the series to the existing index without
expanding it.  The four series are assigned in `TICKERS` order, `acwi`
first, so the frame's index is exactly the `acwi` series' dates, sorted
ascending. -/
def frameIndex (raw : RawData) : List Date :=
  List.insertionSort Date.le (raw.acwi.map Prod.fst)

/-- The row of the outer-joined DataFrame at one date: each column holds the
series value when that series observes the date, NaN otherwise. -/
def rowAt (raw : RawData) (d : Date) : Row :=
  ⟨lookupD raw.acwi d, lookupD raw.fang d, lookupD raw.nikkei d, lookupD raw.usdjpy d⟩

/-- The join of the four series over a given date index
(`df[name] = series` aligns each series to the index: its observations at
dates outside the index are silently dropped, index dates it lacks get
NaN). -/
def joinedOn (raw : RawData) (idx : List Date) : Table :=
  idx.map (fun d => (d, rowAt raw d))

/-- The joined, sorted DataFrame of `process_data` before `ffill`: one row
per `acwi` date. -/
def joined (raw : RawData) : Table :=
  joinedOn raw (frameIndex raw)

/-- One step of forward fill: keep an observed value, otherwise carry the
last observed value forward. -/
def fillVal (carry v : Option ℚ) : Option ℚ :=
  match v with
  | some x => some x
  | none => carry

/-- `df.ffill()`: forward-fill every column independently, threading one
carry (the last observed value) per column down the rows. -/
def ffillTable (ca cf cn cu : Option ℚ) : Table → Table
  | [] => []
  | (d, r) :: rest =>
    (d, ⟨fillVal ca r.acwi, fillVal cf r.fang, fillVal cn r.nikkei, fillVal cu r.usdjpy⟩) ::
      ffillTable (fillVal ca r.acwi) (fillVal cf r.fang)
        (fillVal cn r.nikkei) (fillVal cu r.usdjpy) rest

/-- The forward-filled table of `process_data` (carries start empty: no
value exists before the first row, so leading gaps stay missing). -/
def filledT (raw : RawData) : Table :=
  ffillTable none none none none (joined raw)

/-- NaN-propagating multiplication (`df['acwi'] * df['usdjpy']` on floats:
NaN times anything is NaN). -/
def omul (a b : Option ℚ) : Option ℚ :=
  match a, b with
  | some x, some y => some (x * y)
  | _, _ => none

/-- Currency conversion and column selection: `acwi_jpy = acwi * usdjpy`,
`fang_jpy = fang * usdjpy`, `nikkei_jpy = nikkei`, keep `usdjpy`, and rename
the four kept columns back to the final field names. -/
def convRow (r : Row) : Row :=
  ⟨omul r.acwi r.usdjpy, omul r.fang r.usdjpy, r.nikkei, r.usdjpy⟩

/-- Apply the conversion to every row of the table. -/
def convertT (t : Table) : Table :=
  t.map (fun p => (p.1, convRow p.2))

/-- `result.dropna()`: keep only rows where all four fields are present. -/
def dropnaT (t : Table) : Table :=
  t.filter (fun p =>
    p.2.acwi.isSome && p.2.fang.isSome && p.2.nikkei.isSome && p.2.usdjpy.isSome)

/-- `process_data`: build the table (aligned to the `acwi` index), sort,
forward-fill, convert to yen, keep the four final columns, drop incomplete
rows. -/
def process_data (raw : RawData) : Table :=
  dropnaT (convertT (filledT raw))

/-- Zero-pad a month or day to two digits (`strftime` `%m` / `%d`). -/
def pad2 (n : Nat) : String :=
  if n < 10 then "0" ++ toString n else toString n

/-- Zero-pad a year to four digits (`strftime` `%Y`). -/
def pad4 (n : Nat) : String :=
  if n < 10 then "000" ++ toString n
  else if n < 100 then "00" ++ toString n
  else if n < 1000 then "0" ++ toString n
  else toString n

/-- `date.strftime('%Y-%m-%d')`. -/
def Date.fmt (dt : Date) : String :=
  pad4 dt.y ++ "-" ++ pad2 dt.m ++ "-" ++ pad2 dt.d

/-- A serialized JSON scalar for one numeric field.  `json.dump` writes a
Python float NaN as the token `NaN`, which is distinct from `null`
(Python `None`). -/
inductive JVal where
  | num (q : ℚ)
  | null
  | nan
deriving DecidableEq, Repr

/-- Python `round(x, 2)` modelled on rationals. -/
def round2 (q : ℚ) : ℚ :=
  (round (q * 100) : ℤ) / 100

/-- One record of the output `data` array. -/
structure JRec where
  date : String
  acwi : JVal
  fang : JVal
  nikkei : JVal
  usdjpy : JVal
deriving DecidableEq, Repr

/-- The `metadata` object of the output document. -/
structure Metadata where
  generated_at : String
  start_date : String
  end_date : String
  total_records : Nat
  description : List (String × String)
deriving DecidableEq, Repr

/-- The whole output JSON document. -/
structure OutputDocument where
  metadata : Metadata
  data : List JRec
deriving DecidableEq, Repr

/-- The fixed `metadata.description` labels. -/
def descriptionFields : List (String × String) :=
  [ ("acwi", "オルカン連動指数（MSCI ACWI）円換算")
  , ("fang", "FANG+連動指数（NYSE FANG+）円換算")
  , ("nikkei", "日経平均株価")
  , ("usdjpy", "為替レート（USD/JPY）") ]

/-- One `data` record as built in the `df.iterrows()` loop: `acwi`, `nikkei`
and `usdjpy` are rounded unconditionally (a NaN stays NaN), while `fang`
alone is guarded by `pd.notna` and becomes `None` (JSON `null`) when NaN. -/
def rowToJson (d : Date) (r : Row) : JRec :=
  { date := d.fmt
  , acwi := match r.acwi with | some q => JVal.num (round2 q) | none => JVal.nan
  , fang := match r.fang with | some q => JVal.num (round2 q) | none => JVal.null
  , nikkei := match r.nikkei with | some q => JVal.num (round2 q) | none => JVal.nan
  , usdjpy := match r.usdjpy with | some q => JVal.num (round2 q) | none => JVal.nan }

/-- `save_to_json`, modulo file IO: build the output document.  Reading
`df.index[0]` / `df.index[-1]` on an empty table raises an unhandled
IndexError, modelled as `none`.  `now` stands for
`datetime.now().isoformat()`. -/
def save_to_json (now : String) (df : Table) : Option OutputDocument :=
  match df.head?, df.getLast? with
  | some hd, some last =>
    some
      { metadata :=
          { generated_at := now
          , start_date := hd.1.fmt
          , end_date := last.1.fmt
          , total_records := df.length
          , description := descriptionFields }
      , data := df.map (fun p => rowToJson p.1 p.2) }
  | _, _ => none

/-- Is the first character list a prefix of the second? -/
def prefList : List Char → List Char → Bool
  | [], _ => true
  | _ :: _, [] => false
  | c :: cs, d :: ds => c == d && prefList cs ds

/-- Does the needle occur as a contiguous run inside the haystack? -/
def containsSub : List Char → List Char → Bool
  | needle, [] => needle.isEmpty
  | needle, c :: rest => prefList needle (c :: rest) || containsSub needle rest

/-- Python's substring test `needle in hay`. -/
def strContains (hay needle : String) : Bool :=
  containsSub needle.toList hay.toList

/-- The shape of the provider's DataFrame columns: a MultiIndex of
(field, ticker) pairs, or plain single-level labels. -/
inductive Cols where
  | multi (cs : List (String × String))
  | single (cs : List String)

/-- Which column `fetch_data` ends up selecting. -/
inductive ColRef where
  | multiCol (c : String × String)
  | singleCol (c : String)
deriving DecidableEq, Repr

/-- The column-selection logic of `fetch_data` for a non-empty response:
MultiIndex: the first column whose level-0 label contains `'Close'` as a
substring, else the first column (`df.iloc[:, 0]`); single level: `'Close'`
if present, else `'Adj Close'` if present, else the first column.
`none` means there is no column at all (then `df.iloc[:, 0]` raises). -/
def selectColumn : Cols → Option ColRef
  | Cols.multi cs =>
    match cs.filter (fun c => strContains c.1 "Close") with
    | c :: _ => some (ColRef.multiCol c)
    | [] => cs.head?.map ColRef.multiCol
  | Cols.single cs =>
    if "Close" ∈ cs then some (ColRef.singleCol "Close")
    else if "Adj Close" ∈ cs then some (ColRef.singleCol "Adj Close")
    else cs.head?.map ColRef.singleCol

/-- The configured output location (`OUTPUT_DIR`, `OUTPUT_FILE`). -/
def outputPath : String := "data" ++ "/" ++ "index_data.json"

/-- The console message printed when fewer than 4 symbols were fetched. -/
def fetchErrMsg : String := "エラー: 必要なデータが取得できませんでした"

/-- Outcome of one run of `main`: aborted early with a console message (no
file written, no processing), completed with a written file, or crashed with
an unhandled exception. -/
inductive RunResult where
  | aborted (msg : String)
  | completed (filepath : String) (doc : OutputDocument)
  | crashed
deriving Repr

/-- `dict` lookup on the fetch result. -/
def dictLookup (l : List (String × RawSeries)) (k : String) : Option RawSeries :=
  (l.find? (fun p => p.1 == k)).map Prod.snd

/-- Collect the four named series out of the fetch-result dict; a missing
key would be a KeyError (`none`). -/
def toRawData (l : List (String × RawSeries)) : Option RawData :=
  match dictLookup l "acwi", dictLookup l "fang",
      dictLookup l "nikkei", dictLookup l "usdjpy" with
  | some a, some f, some n, some u => some ⟨a, f, n, u⟩
  | _, _, _, _ => none

/-- `main`, from the point the fetch result is in hand: abort with a console
error when fewer than 4 symbols were fetched, otherwise process and save. -/
def mainRun (now : String) (raw_data : List (String × RawSeries)) : RunResult :=
  if raw_data.length < 4 then RunResult.aborted fetchErrMsg
  else
    match toRawData raw_data with
    | some raw =>
      match save_to_json now (process_data raw) with
      | some doc => RunResult.completed outputPath doc
      | none => RunResult.crashed
    | none => RunResult.crashed

/-- Row lookup by date in a table (`df.loc[d]`). -/
def tlookup (t : Table) (d : Date) : Option Row :=
  (t.find? (fun p => p.1 == d)).map Prod.snd

/-- The value left in a forward-fill carry after scanning a list of
possibly-missing values, starting from carry `c`: the last `some` in the
list, or `c` when the list is all-`none`. -/
def lastSome (c : Option ℚ) (l : List (Option ℚ)) : Option ℚ :=
  l.foldl fillVal c

/-- The dates of `idx` at or before `d`. -/
def datesUpTo (idx : List Date) (d : Date) : List Date :=
  idx.filter (fun e => decide (Date.le e d))

/-- What forward fill over index `idx` produces for series `s` at date `d`:
the observation of `s` at the latest index date `≤ d` that has one, and
`none` when no index date `≤ d` carries an observation. -/
def ffillSpec (s : RawSeries) (idx : List Date) (d : Date) : Option ℚ :=
  lastSome none ((datesUpTo idx d).map (lookupD s))

theorem lastSome_cons (c v : Option ℚ) (l : List (Option ℚ)) :
    lastSome c (v :: l) = lastSome (fillVal c v) l := rfl

theorem lastSome_isSome_of_carry :
    ∀ (l : List (Option ℚ)) (q : ℚ), (lastSome (some q) l).isSome
  | [], _ => rfl
  | v :: l, q => by
    cases v with
    | some x => exact lastSome_isSome_of_carry l x
    | none => exact lastSome_isSome_of_carry l q

theorem lastSome_isSome_of_mem :
    ∀ (l : List (Option ℚ)) (v : Option ℚ), v ∈ l → v.isSome →
      ∀ c, (lastSome c l).isSome := by
  intro l
  induction l with
  | nil => intro v hv _ _; cases hv
  | cons x xs ih =>
    intro v hv hs c
    rcases List.mem_cons.1 hv with h | h
    · subst h
      cases v with
      | some q => rw [lastSome_cons]; exact lastSome_isSome_of_carry xs q
      | none => cases hs
    · rw [lastSome_cons]
      exact ih v h hs _

theorem exists_some_of_lastSome :
    ∀ {l : List (Option ℚ)}, (lastSome none l).isSome → ∃ v ∈ l, v.isSome := by
  intro l
  induction l with
  | nil => intro h; cases h
  | cons x xs ih =>
    intro h
    cases hx : x with
    | some q => exact ⟨some q, by rw [hx] at *; exact List.mem_cons_self _ _, rfl⟩
    | none =>
      rw [lastSome_cons, hx] at h
      obtain ⟨v, hv, hs⟩ := ih h
      exact ⟨v, List.mem_cons_of_mem _ hv, hs⟩

theorem ffillTable_map_fst :
    ∀ (ca cf cn cu : Option ℚ) (t : Table),
      (ffillTable ca cf cn cu t).map Prod.fst = t.map Prod.fst
  | _, _, _, _, [] => rfl
  | ca, cf, cn, cu, (d, r) :: rest => by
    simp only [ffillTable, List.map_cons]
    rw [ffillTable_map_fst]

theorem joinedOn_map_fst (raw : RawData) (idx : List Date) :
    (joinedOn raw idx).map Prod.fst = idx := by
  simp [joinedOn, List.map_map, Function.comp_def]

theorem convertT_map_fst (t : Table) : (convertT t).map Prod.fst = t.map Prod.fst := by
  simp [convertT, List.map_map, Function.comp_def]

theorem filledT_map_fst (raw : RawData) :
    (filledT raw).map Prod.fst = frameIndex raw := by
  rw [filledT, ffillTable_map_fst, joined, joinedOn_map_fst]

theorem lookupD_isSome_iff (s : RawSeries) (d : Date) :
    (lookupD s d).isSome ↔ ∃ q ∈ s, q.1 = d := by
  simp [lookupD, List.find?_isSome]

theorem lookupD_isSome_of_obs {s : RawSeries} {q : Date × ℚ} (hq : q ∈ s) :
    (lookupD s q.1).isSome :=
  (lookupD_isSome_iff s q.1).2 ⟨q, hq, rfl⟩

theorem tlookup_mem {t : Table} {d : Date} {r : Row}
    (h : tlookup t d = some r) : (d, r) ∈ t := by
  unfold tlookup at h
  rw [Option.map_eq_some'] at h
  obtain ⟨p, hp, hsnd⟩ := h
  have hmem := List.mem_of_find?_eq_some hp
  have hpred := List.find?_some hp
  have hfst : p.1 = d := by simpa using hpred
  have : p = (d, r) := by
    cases p; simp_all
  rw [← this]; exact hmem

theorem tlookup_eq_some_of_mem :
    ∀ {t : Table} {d : Date} {r : Row},
      (t.map Prod.fst).Nodup → (d, r) ∈ t → tlookup t d = some r := by
  intro t
  induction t with
  | nil => intro d r _ h; cases h
  | cons p rest ih =>
    intro d r hn hm
    rw [List.map_cons, List.nodup_cons] at hn
    rcases List.mem_cons.1 hm with h | h
    · unfold tlookup
      rw [List.find?_cons_of_pos _ (by simp [← h])]
      simp [← h]
    · have hne : ¬ ((fun x : Date × Row => x.1 == d) p = true) := by
        intro hbeq
        have hpd : p.1 = d := by simpa using hbeq
        exact hn.1 (hpd ▸ (List.mem_map.2 ⟨(d, r), h, rfl⟩))
      have hstep : List.find? (fun x : Date × Row => x.1 == d) (p :: rest) =
          List.find? (fun x : Date × Row => x.1 == d) rest := by
        apply List.find?_cons_of_neg
        exact hne
      unfold tlookup
      rw [hstep]
      exact ih hn.2 h

theorem tlookup_cons_self (d : Date) (r : Row) (t : Table) :
    tlookup ((d, r) :: t) d = some r := by
  unfold tlookup
  have hstep : List.find? (fun x : Date × Row => x.1 == d) ((d, r) :: t) = some (d, r) := by
    apply List.find?_cons_of_pos
    simp
  rw [hstep]
  rfl

theorem tlookup_cons_ne {x d : Date} (hne : x ≠ d) (r : Row) (t : Table) :
    tlookup ((x, r) :: t) d = tlookup t d := by
  unfold tlookup
  have hstep : List.find? (fun p : Date × Row => p.1 == d) ((x, r) :: t) =
      List.find? (fun p : Date × Row => p.1 == d) t := by
    apply List.find?_cons_of_neg
    simp [hne]
  rw [hstep]

theorem datesUpTo_cons (x : Date) (rest : List Date) (d : Date) :
    datesUpTo (x :: rest) d =
      if Date.le x d then x :: datesUpTo rest d else datesUpTo rest d := by
  unfold datesUpTo
  rw [List.filter_cons]
  by_cases h : Date.le x d
  · simp [h]
  · simp [h]

theorem datesUpTo_nil_of_lt {rest : List Date} {d : Date}
    (h : ∀ e ∈ rest, Date.lt d e) : datesUpTo rest d = [] := by
  unfold datesUpTo
  rw [List.filter_eq_nil_iff]
  intro e he
  simpa using Date.not_le_of_lt (h e he)

theorem frameIndex_sorted (raw : RawData) : (frameIndex raw).Pairwise Date.le :=
  List.sorted_insertionSort Date.le (raw.acwi.map Prod.fst)

/-- The frame's index is duplicate free whenever the `acwi` series' dates
are.  (A `RawSeries` is an ordered-by-date mapping, so valid inputs have
duplicate-free dates; on a duplicated index pandas alignment raises and the
run never reaches the table.) -/
theorem frameIndex_nodup {raw : RawData} (hnd : (raw.acwi.map Prod.fst).Nodup) :
    (frameIndex raw).Nodup :=
  ((List.perm_insertionSort Date.le (raw.acwi.map Prod.fst)).nodup_iff).2 hnd

theorem pairwise_lt_of_le_nodup :
    ∀ {l : List Date}, l.Pairwise Date.le → l.Nodup → l.Pairwise Date.lt := by
  intro l h hn
  induction l with
  | nil => exact List.Pairwise.nil
  | cons x xs ih =>
    rw [List.pairwise_cons] at h ⊢
    rw [List.nodup_cons] at hn
    refine ⟨fun e he => Date.lt_of_le_of_ne (h.1 e he) ?_, ih h.2 hn.2⟩
    intro heq
    exact hn.1 (by rw [heq]; exact he)

theorem frameIndex_pairwise_lt {raw : RawData}
    (hnd : (raw.acwi.map Prod.fst).Nodup) :
    (frameIndex raw).Pairwise Date.lt :=
  pairwise_lt_of_le_nodup (frameIndex_sorted raw) (frameIndex_nodup hnd)

theorem mem_frameIndex {raw : RawData} {d : Date} :
    d ∈ frameIndex raw ↔ d ∈ raw.acwi.map Prod.fst := by
  simp [frameIndex]

/-- The heart of the alignment stage: over a strictly increasing index, the
forward-filled joined table holds, at every index date `d` and for every
column, the series' observation at the latest index date `≤ d` that has one
(threaded through the initial carries), and stays missing when no date `≤ d`
has an observation. -/
theorem ffill_lookup (raw : RawData) :
    ∀ (idx : List Date), idx.Pairwise Date.lt →
      ∀ (ca cf cn cu : Option ℚ) (d : Date), d ∈ idx →
        tlookup (ffillTable ca cf cn cu (joinedOn raw idx)) d =
          some ⟨ lastSome ca ((datesUpTo idx d).map (lookupD raw.acwi)),
                 lastSome cf ((datesUpTo idx d).map (lookupD raw.fang)),
                 lastSome cn ((datesUpTo idx d).map (lookupD raw.nikkei)),
                 lastSome cu ((datesUpTo idx d).map (lookupD raw.usdjpy)) ⟩ := by
  intro idx
  induction idx with
  | nil => intro _ _ _ _ _ d hd; cases hd
  | cons x rest ih =>
    intro hpw ca cf cn cu d hd
    rw [List.pairwise_cons] at hpw
    have hj : joinedOn raw (x :: rest) = (x, rowAt raw x) :: joinedOn raw rest := rfl
    rw [hj]
    show tlookup
        ((x, ⟨fillVal ca (rowAt raw x).acwi, fillVal cf (rowAt raw x).fang,
            fillVal cn (rowAt raw x).nikkei, fillVal cu (rowAt raw x).usdjpy⟩) ::
          ffillTable (fillVal ca (rowAt raw x).acwi) (fillVal cf (rowAt raw x).fang)
            (fillVal cn (rowAt raw x).nikkei) (fillVal cu (rowAt raw x).usdjpy)
            (joinedOn raw rest)) d = _
    by_cases hxd : x = d
    · subst hxd
      rw [tlookup_cons_self]
      rw [datesUpTo_cons, if_pos (Date.le_refl x), datesUpTo_nil_of_lt hpw.1]
      rfl
    · have hd' : d ∈ rest := by
        rcases List.mem_cons.1 hd with h | h
        · exact absurd h.symm hxd
        · exact h
      have hlt : Date.lt x d := hpw.1 d hd'
      rw [tlookup_cons_ne hxd]
      rw [ih hpw.2 _ _ _ _ d hd']
      rw [datesUpTo_cons, if_pos (Date.le_of_lt hlt)]
      rfl

theorem omul_isSome_elim {a b : Option ℚ} (h : (omul a b).isSome) :
    a.isSome ∧ b.isSome := by
  cases a <;> cases b <;> simp [omul] at *

theorem omul_isSome_intro {a b : Option ℚ} (ha : a.isSome) (hb : b.isSome) :
    (omul a b).isSome := by
  cases a <;> cases b <;> simp [omul] at *

theorem ffillSpec_isSome_elim {s : RawSeries} {idx : List Date} {d : Date}
    (h : (ffillSpec s idx d).isSome) :
    ∃ q ∈ s, q.1 ∈ idx ∧ Date.le q.1 d := by
  obtain ⟨v, hv, hs⟩ := exists_some_of_lastSome h
  obtain ⟨e, he, hev⟩ := List.mem_map.1 hv
  rw [← hev] at hs
  obtain ⟨q, hq, hqe⟩ := (lookupD_isSome_iff s e).1 hs
  obtain ⟨hei, hef⟩ := List.mem_filter.1 he
  have hle : Date.le e d := by simpa using hef
  exact ⟨q, hq, hqe ▸ hei, hqe ▸ hle⟩

theorem ffillSpec_isSome_intro {s : RawSeries} {idx : List Date} {d : Date}
    (h : ∃ q ∈ s, q.1 ∈ idx ∧ Date.le q.1 d) : (ffillSpec s idx d).isSome := by
  obtain ⟨q, hqs, hqi, hqle⟩ := h
  apply lastSome_isSome_of_mem _ (lookupD s q.1)
  · exact List.mem_map.2 ⟨q.1, List.mem_filter.2 ⟨hqi, by simpa using hqle⟩, rfl⟩
  · exact lookupD_isSome_of_obs hqs

/-- The row the forward-filled table holds at every index date. -/
def specRowAt (raw : RawData) (d : Date) : Row :=
  ⟨ ffillSpec raw.acwi (frameIndex raw) d,
    ffillSpec raw.fang (frameIndex raw) d,
    ffillSpec raw.nikkei (frameIndex raw) d,
    ffillSpec raw.usdjpy (frameIndex raw) d ⟩

theorem filledT_lookup {raw : RawData} {d : Date}
    (hnd : (raw.acwi.map Prod.fst).Nodup) (hd : d ∈ frameIndex raw) :
    tlookup (filledT raw) d = some (specRowAt raw d) :=
  ffill_lookup raw (frameIndex raw) (frameIndex_pairwise_lt hnd)
    none none none none d hd

theorem filledT_nodup_fst {raw : RawData}
    (hnd : (raw.acwi.map Prod.fst).Nodup) :
    ((filledT raw).map Prod.fst).Nodup := by
  rw [filledT_map_fst]
  exact frameIndex_nodup hnd

/-- Dissect a surviving row of `process_data`: its date is an index date,
its fields are the converted forward-filled values at that date, and all
four forward-filled source values were present. -/
theorem process_data_elim {raw : RawData} {p : Date × Row}
    (hnd : (raw.acwi.map Prod.fst).Nodup) (hp : p ∈ process_data raw) :
    p.1 ∈ frameIndex raw ∧ p.2 = convRow (specRowAt raw p.1) ∧
      (specRowAt raw p.1).acwi.isSome ∧ (specRowAt raw p.1).fang.isSome ∧
      (specRowAt raw p.1).nikkei.isSome ∧ (specRowAt raw p.1).usdjpy.isSome := by
  unfold process_data dropnaT at hp
  obtain ⟨hmem, hcond⟩ := List.mem_filter.1 hp
  obtain ⟨q, hqf, hqe⟩ := List.mem_map.1 hmem
  have hq1 : p.1 ∈ frameIndex raw := by
    rw [← filledT_map_fst raw]
    exact List.mem_map.2 ⟨q, hqf, by rw [← hqe]⟩
  have hqp1 : q.1 = p.1 := by rw [← hqe]
  have hql : tlookup (filledT raw) q.1 = some q.2 := by
    apply tlookup_eq_some_of_mem (filledT_nodup_fst hnd)
    exact hqf
  have hq2 : q.2 = specRowAt raw p.1 := by
    have : tlookup (filledT raw) p.1 = some (specRowAt raw p.1) :=
      filledT_lookup hnd hq1
    rw [hqp1] at hql
    rw [hql] at this
    exact Option.some_injective _ this
  have hp2 : p.2 = convRow (specRowAt raw p.1) := by
    rw [← hqe]
    dsimp only
    rw [hqp1, hq2]
  refine ⟨hq1, hp2, ?_, ?_, ?_, ?_⟩
  all_goals
    rw [hp2] at hcond
    simp only [Bool.and_eq_true] at hcond
  · exact (omul_isSome_elim hcond.1.1.1).1
  · exact (omul_isSome_elim hcond.1.1.2).1
  · exact hcond.1.2
  · exact hcond.2

/-- Re-assemble a `process_data` row: an index date all of whose four
forward-filled values are present survives conversion and `dropna`. -/
theorem process_data_intro {raw : RawData} {d : Date}
    (hnd : (raw.acwi.map Prod.fst).Nodup) (hd : d ∈ frameIndex raw)
    (ha : (specRowAt raw d).acwi.isSome) (hf : (specRowAt raw d).fang.isSome)
    (hn : (specRowAt raw d).nikkei.isSome) (hu : (specRowAt raw d).usdjpy.isSome) :
    (d, convRow (specRowAt raw d)) ∈ process_data raw := by
  unfold process_data dropnaT
  apply List.mem_filter.2
  constructor
  · apply List.mem_map.2
    refine ⟨(d, specRowAt raw d), ?_, rfl⟩
    exact tlookup_mem (filledT_lookup hnd hd)
  · simp only [Bool.and_eq_true]
    exact ⟨⟨⟨omul_isSome_intro ha hu, omul_isSome_intro hf hu⟩, hn⟩, hu⟩

theorem mem_allDates_acwi {raw : RawData} {q : Date × ℚ} (hq : q ∈ raw.acwi) :
    q.1 ∈ allDates raw := by
  unfold allDates
  refine List.mem_append.2 (Or.inl ?_)
  refine List.mem_append.2 (Or.inl ?_)
  refine List.mem_append.2 (Or.inl ?_)
  exact List.mem_map.2 ⟨q, hq, rfl⟩

theorem process_map_fst_sublist (raw : RawData) :
    ((process_data raw).map Prod.fst).Sublist (frameIndex raw) := by
  have h1 : List.Sublist (process_data raw) (convertT (filledT raw)) :=
    List.filter_sublist _
  have h2 := h1.map Prod.fst
  rw [convertT_map_fst, filledT_map_fst] at h2
  exact h2

attribute [local semireducible] Rat.mul

/-- The 5-day gapless scenario of the spec: `acwi = 100.0` and
`usdjpy = 150.0` constant over 2024-01-01..2024-01-05. -/
def jan (n : Nat) : Date := ⟨2024, 1, n⟩

def scenarioRaw : RawData where
  acwi := [(jan 1, 100), (jan 2, 100), (jan 3, 100), (jan 4, 100), (jan 5, 100)]
  fang := [(jan 1, 1), (jan 2, 1), (jan 3, 1), (jan 4, 1), (jan 5, 1)]
  nikkei := [(jan 1, 2), (jan 2, 2), (jan 3, 2), (jan 4, 2), (jan 5, 2)]
  usdjpy := [(jan 1, 150), (jan 2, 150), (jan 3, 150), (jan 4, 150), (jan 5, 150)]

/-- A raw input whose `acwi` series observes only 2024-01-03 and
2024-01-05 while every other series covers 2024-01-01..2024-01-05. -/
def gapRaw : RawData where
  acwi := [(jan 3, 100), (jan 5, 110)]
  fang := [(jan 1, 1), (jan 2, 1), (jan 3, 1), (jan 4, 1), (jan 5, 1)]
  nikkei := [(jan 1, 2), (jan 2, 2), (jan 3, 2), (jan 4, 2), (jan 5, 2)]
  usdjpy := [(jan 1, 150), (jan 2, 150), (jan 3, 150), (jan 4, 150), (jan 5, 150)]

/-- A raw input with a gapless `acwi` series where the `fang` series
observes only 2024-01-01 and 2024-01-04, leaving index-date gaps for
forward fill. -/
def fgapRaw : RawData where
  acwi := [(jan 1, 100), (jan 2, 100), (jan 3, 100), (jan 4, 100), (jan 5, 100)]
  fang := [(jan 1, 7), (jan 4, 9)]
  nikkei := [(jan 1, 2), (jan 2, 2), (jan 3, 2), (jan 4, 2), (jan 5, 2)]
  usdjpy := [(jan 1, 150), (jan 2, 150), (jan 3, 150), (jan 4, 150), (jan 5, 150)]

/-- C3 counterexample: the claim reads the table as indexed by the union
of the series' dates and asserts that a union date lying after every
series' first observation is filled and retained; but `df[name] = series`
aligns every later series to the `acwi` index, so on `gapRaw` the union
date 2024-01-04 — every series has an observation at or before it — never
appears in the final table, whose dates are exactly acwi's
[2024-01-03, 2024-01-05]. -/
theorem claim_C3_counterexample :
    (jan 4) ∈ allDates gapRaw ∧
      (∃ q ∈ gapRaw.acwi, Date.le q.1 (jan 4)) ∧
      (∃ q ∈ gapRaw.fang, Date.le q.1 (jan 4)) ∧
      (∃ q ∈ gapRaw.nikkei, Date.le q.1 (jan 4)) ∧
      (∃ q ∈ gapRaw.usdjpy, Date.le q.1 (jan 4)) ∧
      (process_data gapRaw).map Prod.fst = [jan 3, jan 5] := by
  decide

/-- C3 amended: the table is indexed by the `acwi` series' dates, sorted
ascending — not by the union of the series' dates, since pandas column
assignment aligns the later series to the first column's index.  Over a
duplicate-free `acwi` index: (1) at every index date `d` every column of
the forward-filled table holds `ffillSpec`: the series' observation at the
latest index date `≤ d` that has one, and `none` when no index date `≤ d`
carries one (values are carried forward only, never backward; observations
at dates outside the `acwi` index never enter).  (2) Hence every row
surviving in the final table lies at or after each series' first in-index
observation — index dates strictly before that stay missing and are
dropped.  (3) Conversely every index date at or after all four series'
first in-index observations is filled and retained. -/
theorem claim_C3_forward_fill (raw : RawData)
    (hnd : (raw.acwi.map Prod.fst).Nodup) :
    (∀ d ∈ frameIndex raw,
        tlookup (filledT raw) d =
          some ⟨ ffillSpec raw.acwi (frameIndex raw) d,
                 ffillSpec raw.fang (frameIndex raw) d,
                 ffillSpec raw.nikkei (frameIndex raw) d,
                 ffillSpec raw.usdjpy (frameIndex raw) d ⟩)
    ∧ (∀ p ∈ process_data raw,
        (∃ q ∈ raw.acwi, q.1 ∈ frameIndex raw ∧ Date.le q.1 p.1) ∧
        (∃ q ∈ raw.fang, q.1 ∈ frameIndex raw ∧ Date.le q.1 p.1) ∧
        (∃ q ∈ raw.nikkei, q.1 ∈ frameIndex raw ∧ Date.le q.1 p.1) ∧
        (∃ q ∈ raw.usdjpy, q.1 ∈ frameIndex raw ∧ Date.le q.1 p.1))
    ∧ (∀ d ∈ frameIndex raw,
        ((∃ q ∈ raw.acwi, q.1 ∈ frameIndex raw ∧ Date.le q.1 d) ∧
         (∃ q ∈ raw.fang, q.1 ∈ frameIndex raw ∧ Date.le q.1 d) ∧
         (∃ q ∈ raw.nikkei, q.1 ∈ frameIndex raw ∧ Date.le q.1 d) ∧
         (∃ q ∈ raw.usdjpy, q.1 ∈ frameIndex raw ∧ Date.le q.1 d)) →
        ∃ r, (d, r) ∈ process_data raw) := by
  refine ⟨fun d hd => filledT_lookup hnd hd, ?_, ?_⟩
  · intro p hp
    obtain ⟨_, _, ha, hf, hn, hu⟩ := process_data_elim hnd hp
    exact ⟨ffillSpec_isSome_elim ha, ffillSpec_isSome_elim hf,
      ffillSpec_isSome_elim hn, ffillSpec_isSome_elim hu⟩
  · intro d hd hobs
    obtain ⟨⟨qa, hqa, hia, hlea⟩, ⟨qf, hqf, hif, hlef⟩,
      ⟨qn, hqn, hin, hlen⟩, ⟨qu, hqu, hiu, hleu⟩⟩ := hobs
    have ha : (specRowAt raw d).acwi.isSome :=
      ffillSpec_isSome_intro ⟨qa, hqa, hia, hlea⟩
    have hf : (specRowAt raw d).fang.isSome :=
      ffillSpec_isSome_intro ⟨qf, hqf, hif, hlef⟩
    have hn : (specRowAt raw d).nikkei.isSome :=
      ffillSpec_isSome_intro ⟨qn, hqn, hin, hlen⟩
    have hu : (specRowAt raw d).usdjpy.isSome :=
      ffillSpec_isSome_intro ⟨qu, hqu, hiu, hleu⟩
    exact ⟨convRow (specRowAt raw d), process_data_intro hnd hd ha hf hn hu⟩

/-- C3 witness: in `fgapRaw`, the index date 2024-01-02 — a `fang` gap
after fang's first in-index observation 2024-01-01 — is filled and
retained in the final table. -/
theorem claim_C3_forward_fill_witness :
    ∃ r, (jan 2, r) ∈ process_data fgapRaw :=
  (claim_C3_forward_fill fgapRaw (by decide)).2.2 (jan 2) (by decide)
    ⟨⟨(jan 2, 100), by decide, by decide, by decide⟩,
     ⟨(jan 1, 7), by decide, by decide, by decide⟩,
     ⟨(jan 2, 2), by decide, by decide, by decide⟩,
     ⟨(jan 2, 150), by decide, by decide, by decide⟩⟩

/-- C4: every surviving row's `acwi` value is the forward-filled raw `acwi`
times the forward-filled `usdjpy`, `fang` likewise, `nikkei` and `usdjpy`
pass through unchanged; and in the spec's gapless 5-day scenario with
constant `acwi = 100` and `usdjpy = 150`, the `acwi` column is `15000` on
every one of the five dates. -/
theorem claim_C4_currency_conversion (raw : RawData) :
    (∀ p ∈ process_data raw,
        ∃ fr, (p.1, fr) ∈ filledT raw ∧
          p.2.acwi = omul fr.acwi fr.usdjpy ∧ p.2.fang = omul fr.fang fr.usdjpy ∧
          p.2.nikkei = fr.nikkei ∧ p.2.usdjpy = fr.usdjpy)
    ∧ ((process_data scenarioRaw).length = 5 ∧
        ∀ p ∈ process_data scenarioRaw, p.2.acwi = some 15000) := by
  constructor
  · intro p hp
    unfold process_data dropnaT at hp
    obtain ⟨hmem, _⟩ := List.mem_filter.1 hp
    obtain ⟨q, hqf, hqe⟩ := List.mem_map.1 hmem
    refine ⟨q.2, ?_, ?_, ?_, ?_, ?_⟩
    · rw [← hqe]; exact hqf
    all_goals (rw [← hqe]; rfl)
  · constructor
    · decide
    · decide

/-- C4 witness: the first scenario row is 2024-01-01 with
`acwi = 100 * 150 = 15000`. -/
theorem claim_C4_currency_conversion_witness :
    (Prod.snd ((jan 1 : Date), (⟨some 15000, some 150, some 2, some 150⟩ : Row))).acwi
      = some 15000 :=
  (claim_C4_currency_conversion scenarioRaw).2.2
    ((jan 1 : Date), (⟨some 15000, some 150, some 2, some 150⟩ : Row)) (by decide)

/-- C5: the final table's invariant for valid inputs (a `RawSeries` is an
ordered-by-date mapping, so its dates are duplicate free) — every
surviving row has all four fields present, and the dates are strictly
increasing (hence duplicate free). -/
theorem claim_C5_invariant (raw : RawData)
    (hnd : (raw.acwi.map Prod.fst).Nodup) :
    (∀ p ∈ process_data raw,
        p.2.acwi.isSome ∧ p.2.fang.isSome ∧ p.2.nikkei.isSome ∧ p.2.usdjpy.isSome)
    ∧ ((process_data raw).map Prod.fst).Pairwise Date.lt := by
  constructor
  · intro p hp
    unfold process_data dropnaT at hp
    have hcond := (List.mem_filter.1 hp).2
    simp only [Bool.and_eq_true] at hcond
    exact ⟨hcond.1.1.1, hcond.1.1.2, hcond.1.2, hcond.2⟩
  · exact List.Pairwise.sublist (process_map_fst_sublist raw)
      (frameIndex_pairwise_lt hnd)

/-- C5 witness: the first row of the scenario table has all four fields
present. -/
theorem claim_C5_invariant_witness :
    (Prod.snd ((jan 1 : Date), (⟨some 15000, some 150, some 2, some 150⟩ : Row))).acwi.isSome
      ∧ (Prod.snd ((jan 1 : Date), (⟨some 15000, some 150, some 2, some 150⟩ : Row))).fang.isSome
      ∧ (Prod.snd ((jan 1 : Date), (⟨some 15000, some 150, some 2, some 150⟩ : Row))).nikkei.isSome
      ∧ (Prod.snd ((jan 1 : Date), (⟨some 15000, some 150, some 2, some 150⟩ : Row))).usdjpy.isSome :=
  (claim_C5_invariant scenarioRaw (by decide)).1
    ((jan 1 : Date), (⟨some 15000, some 150, some 2, some 150⟩ : Row)) (by decide)

/-- C10: the aligner never introduces dates — every date of the final
table is an `acwi` date, hence appears in the union of the four input
series' dates. -/
theorem claim_C10_no_new_dates (raw : RawData) :
    ∀ p ∈ process_data raw, p.1 ∈ allDates raw := by
  intro p hp
  have h1 : p.1 ∈ (process_data raw).map Prod.fst :=
    List.mem_map.2 ⟨p, hp, rfl⟩
  have h2 : p.1 ∈ frameIndex raw := (process_map_fst_sublist raw).subset h1
  obtain ⟨q, hq, he⟩ := List.mem_map.1 (mem_frameIndex.1 h2)
  exact he ▸ mem_allDates_acwi hq

/-- C10 witness: the date of the first scenario row is an input date. -/
theorem claim_C10_no_new_dates_witness :
    (Prod.fst ((jan 1 : Date), (⟨some 15000, some 150, some 2, some 150⟩ : Row)))
      ∈ allDates scenarioRaw :=
  claim_C10_no_new_dates scenarioRaw
    ((jan 1 : Date), (⟨some 15000, some 150, some 2, some 150⟩ : Row)) (by decide)

/-- A one-row table used to instantiate the serializer theorems. -/
def wtable : Table := [(jan 1, ⟨some 1, some 2, some 3, some 4⟩)]

/-- A table whose `acwi` value is missing (NaN), to probe the serializer's
per-field null handling. -/
def nanTable : Table := [(jan 1, ⟨none, some 1, some 2, some 3⟩)]

/-- C7: on a non-empty table the serializer emits `metadata.start_date` =
first date and `metadata.end_date` = last date, both in `YYYY-MM-DD` format
(`Date.fmt`), `metadata.total_records` = the row count, and a `data` array
that is exactly the table's rows, record by record, in table order. -/
theorem claim_C7_metadata (now : String) (df : Table) (h : df ≠ []) :
    ∃ doc, save_to_json now df = some doc ∧
      doc.metadata.start_date = (df.head h).1.fmt ∧
      doc.metadata.end_date = (df.getLast h).1.fmt ∧
      doc.metadata.total_records = df.length ∧
      doc.data = df.map (fun p => rowToJson p.1 p.2) := by
  have h1 : df.head? = some (df.head h) := List.head?_eq_head h
  have h2 : df.getLast? = some (df.getLast h) := List.getLast?_eq_getLast df h
  unfold save_to_json
  rw [h1, h2]
  exact ⟨_, rfl, rfl, rfl, rfl, rfl⟩

/-- C7 witness: the one-row table serializes with start date 2024-01-01 and
one record. -/
theorem claim_C7_metadata_witness :
    ∃ doc, save_to_json "G" wtable = some doc ∧
      doc.metadata.start_date = (jan 1).fmt ∧
      doc.metadata.total_records = 1 := by
  obtain ⟨doc, ha, hb, _, hd, _⟩ := claim_C7_metadata "G" wtable (by decide)
  exact ⟨doc, ha, hb, hd⟩

/-- C8: the serializer is deterministic in its table input — its `data`
array does not depend on the clock value used for `generated_at`. -/
theorem claim_C8_deterministic (df : Table) (now1 now2 : String) :
    (save_to_json now1 df).map OutputDocument.data =
      (save_to_json now2 df).map OutputDocument.data := by
  unfold save_to_json
  cases hh : df.head? <;> cases hl : df.getLast? <;> rfl

/-- C9: the serializer requires a non-empty table — on the empty table the
metadata indexing fails (no document is produced: the unhandled IndexError
branch), and on any non-empty table that branch is unreachable and a
document is produced. -/
theorem claim_C9_empty_table (now : String) (df : Table) :
    (df = [] → save_to_json now df = none) ∧
      (df ≠ [] → ∃ doc, save_to_json now df = some doc) := by
  constructor
  · intro h
    subst h
    rfl
  · intro h
    unfold save_to_json
    rw [List.head?_eq_head h, List.getLast?_eq_getLast df h]
    exact ⟨_, rfl⟩

/-- C9 witness: the empty table yields no document; a one-row table does. -/
theorem claim_C9_empty_table_witness :
    save_to_json "G" ([] : Table) = none ∧
      ∃ doc, save_to_json "G" wtable = some doc :=
  ⟨(claim_C9_empty_table "G" []).1 rfl,
   (claim_C9_empty_table "G" wtable).2 (by decide)⟩

/-- C1 counterexample: the claim says every one of the four numeric fields
independently serializes a missing (NaN) value to JSON `null`; but on a row
whose `acwi` is missing the code emits the non-null NaN token for `acwi`
(only `fang` is guarded by `pd.notna`). -/
theorem claim_C1_counterexample :
    (save_to_json "G" nanTable).map (fun doc => doc.data.map JRec.acwi) =
        some [JVal.nan] ∧
      JVal.nan ≠ JVal.null := by
  constructor
  · rfl
  · decide

/-- C1 amended: per record, a present value serializes to the value rounded
to 2 decimal places for every field; a missing value serializes to JSON
`null` for the `fang` field only, while a missing `acwi`, `nikkei` or
`usdjpy` propagates as a non-null NaN token.  The `data` array re-parses
record-for-record against the table. -/
theorem claim_C1_amended (now : String) (df : Table) (doc : OutputDocument)
    (h : save_to_json now df = some doc) :
    doc.data = df.map (fun p => rowToJson p.1 p.2) ∧
    ∀ p ∈ df,
      ((rowToJson p.1 p.2).fang = JVal.null ↔ p.2.fang = none) ∧
      (∀ q : ℚ, p.2.fang = some q → (rowToJson p.1 p.2).fang = JVal.num (round2 q)) ∧
      (∀ q : ℚ, p.2.acwi = some q → (rowToJson p.1 p.2).acwi = JVal.num (round2 q)) ∧
      (p.2.acwi = none → (rowToJson p.1 p.2).acwi = JVal.nan ∧
        (rowToJson p.1 p.2).acwi ≠ JVal.null) ∧
      (∀ q : ℚ, p.2.nikkei = some q → (rowToJson p.1 p.2).nikkei = JVal.num (round2 q)) ∧
      (p.2.nikkei = none → (rowToJson p.1 p.2).nikkei = JVal.nan ∧
        (rowToJson p.1 p.2).nikkei ≠ JVal.null) ∧
      (∀ q : ℚ, p.2.usdjpy = some q → (rowToJson p.1 p.2).usdjpy = JVal.num (round2 q)) ∧
      (p.2.usdjpy = none → (rowToJson p.1 p.2).usdjpy = JVal.nan ∧
        (rowToJson p.1 p.2).usdjpy ≠ JVal.null) := by
  constructor
  · unfold save_to_json at h
    cases hh : df.head? with
    | none =>
      rw [hh] at h
      cases hl : df.getLast? <;> rw [hl] at h <;> exact Option.noConfusion h
    | some a =>
      rw [hh] at h
      cases hl : df.getLast? with
      | none => rw [hl] at h; exact Option.noConfusion h
      | some b =>
        rw [hl] at h
        have hd := Option.some_injective _ h
        rw [← hd]
  · intro p _
    refine ⟨?_, ?_, ?_, ?_, ?_, ?_, ?_, ?_⟩
    · cases hc : p.2.fang <;> simp [rowToJson, hc]
    · intro q hq; simp [rowToJson, hq]
    · intro q hq; simp [rowToJson, hq]
    · intro hq; simp [rowToJson, hq]
    · intro q hq; simp [rowToJson, hq]
    · intro hq; simp [rowToJson, hq]
    · intro q hq; simp [rowToJson, hq]
    · intro hq; simp [rowToJson, hq]

/-- C1 amended witness: instantiated on the one-row table. -/
theorem claim_C1_amended_witness :
    ∃ doc, save_to_json "G" wtable = some doc ∧
      doc.data = wtable.map (fun p => rowToJson p.1 p.2) :=
  ⟨_, rfl, (claim_C1_amended "G" wtable _ rfl).1⟩

/-- C2: when the fetch result holds fewer than 4 of the 4 configured
symbols, the run prints the console error message and stops: no processing,
no serialization, no output file, and no exception. -/
theorem claim_C2_abort (now : String) (raw_data : List (String × RawSeries))
    (h : raw_data.length < 4) :
    mainRun now raw_data = RunResult.aborted fetchErrMsg := by
  unfold mainRun
  rw [if_pos h]

/-- C2 witness: an empty fetch result aborts with the error message. -/
theorem claim_C2_abort_witness :
    mainRun "G" [] = RunResult.aborted fetchErrMsg :=
  claim_C2_abort "G" [] (by decide)

/-- A multi-level response whose first field label is "Adj Close" and which
also offers the "Close" field. -/
def adjCols : List (String × String) := [("Adj Close", "ACWI"), ("Close", "ACWI")]

/-- C6 counterexample: the claim says a multi-level response selects the
"Close" field, but on a multi-level response listing "Adj Close" before
"Close" the code selects "Adj Close" (the membership test is a substring
test on the field label), even though the "Close" field is available. -/
theorem claim_C6_counterexample :
    ("Close", "ACWI") ∈ adjCols ∧
      selectColumn (Cols.multi adjCols) =
        some (ColRef.multiCol ("Adj Close", "ACWI")) ∧
      ("Adj Close", "ACWI") ≠ (("Close", "ACWI") : String × String) := by
  refine ⟨by decide, ?_, by decide⟩
  rfl

/-- C6 amended: for a non-empty response, single-level selection is as the
claim states ("Close", else "Adj Close", else the first column); multi-level
selection instead picks the first column whose field-level label contains
"Close" as a substring — possibly "Adj Close" rather than the "Close" field
— and falls back to the first column when no label contains "Close". -/
theorem claim_C6_column_selection :
    (∀ (cs : List (String × String)) (c : String × String), c ∈ cs →
        strContains c.1 "Close" = true →
        ∃ c0, selectColumn (Cols.multi cs) = some (ColRef.multiCol c0) ∧
          c0 ∈ cs ∧ strContains c0.1 "Close" = true)
    ∧ (∀ (c : String × String) (rest : List (String × String)),
        (∀ e ∈ c :: rest, strContains e.1 "Close" = false) →
        selectColumn (Cols.multi (c :: rest)) = some (ColRef.multiCol c))
    ∧ (∀ ds : List String, "Close" ∈ ds →
        selectColumn (Cols.single ds) = some (ColRef.singleCol "Close"))
    ∧ (∀ ds : List String, "Close" ∉ ds → "Adj Close" ∈ ds →
        selectColumn (Cols.single ds) = some (ColRef.singleCol "Adj Close"))
    ∧ (∀ (d : String) (rest : List String), "Close" ∉ d :: rest →
        "Adj Close" ∉ d :: rest →
        selectColumn (Cols.single (d :: rest)) = some (ColRef.singleCol d)) := by
  refine ⟨?_, ?_, ?_, ?_, ?_⟩
  · intro cs c hc hclose
    cases hf : cs.filter (fun c => strContains c.1 "Close") with
    | nil =>
      exact absurd hclose (by simpa using List.filter_eq_nil_iff.1 hf c hc)
    | cons c0 tl =>
      have hc0 : c0 ∈ cs.filter (fun c => strContains c.1 "Close") := by
        rw [hf]; exact List.mem_cons_self _ _
      obtain ⟨hmem, hpred⟩ := List.mem_filter.1 hc0
      refine ⟨c0, ?_, hmem, hpred⟩
      simp only [selectColumn]
      rw [hf]
  · intro c rest hnone
    have hf : (c :: rest).filter (fun c => strContains c.1 "Close") = [] :=
      List.filter_eq_nil_iff.2 (fun e he => by simp [hnone e he])
    simp only [selectColumn]
    rw [hf]
    rfl
  · intro ds hC
    simp only [selectColumn]
    rw [if_pos hC]
  · intro ds hnC hA
    simp only [selectColumn]
    rw [if_neg hnC, if_pos hA]
  · intro d rest hnC hnA
    simp only [selectColumn]
    rw [if_neg hnC, if_neg hnA]
    rfl

/-- C6 amended witness: on single-level columns offering only "Adj Close",
the code selects "Adj Close". -/
theorem claim_C6_column_selection_witness :
    selectColumn (Cols.single ["Adj Close", "Volume"]) =
      some (ColRef.singleCol "Adj Close") :=
  claim_C6_column_selection.2.2.2.1 ["Adj Close", "Volume"]
    (by decide) (by decide)
